import Mathlib

/-!
Verification of the mononoke history-exchange and import engine:
a shallow embedding of the changegroup decoder, the bundle part
encoders, the envelope codecs on top of which the blob store works,
and the blobimport changeset-upload pipeline, together with theorems
settling the specified properties.
-/

namespace Mononoke

/-! ### Node hashes (mercurial-types nodehash: 20-byte sha-1 digests) -/

/-- A node hash is a fixed-length (20-byte) digest; bytes are modelled as
naturals. -/
abbrev NodeHash : Type := { l : List Nat // l.length = 20 }

/-- The reserved null sentinel: 20 zero bytes. -/
def NULL_HASH : NodeHash := ⟨List.replicate 20 0, by simp⟩

/-! ### Delta engine

Modelled from the spec: the delta engine (`mercurial-types` delta module) is
not among the visible sources. Per the spec, a delta is a sequence of
copy/insert operations ("fragments") referencing offsets into the base byte
sequence; `new_fulltext(data)` constructs a delta that yields `data` against
the empty base. Each fragment replaces `base[start, end)` with its content;
fragments are applied left to right at ascending offsets. -/

structure Fragment where
  start : Nat
  stop : Nat
  content : List Nat
  deriving DecidableEq, Repr

structure Delta where
  frags : List Fragment
  deriving DecidableEq, Repr

/-- Modelled from the spec: `new_fulltext(data)` is a single insert fragment
at offset zero, which yields `data` verbatim when applied to an empty base. -/
def Delta.new_fulltext (text : List Nat) : Delta :=
  ⟨[⟨0, 0, text⟩]⟩

/-- Modelled from the spec: apply the fragments of a delta to `base`, keeping
untouched stretches of the base between fragments. `offs` is the position in
`base` already consumed. -/
def applyFrags (base : List Nat) (offs : Nat) : List Fragment → List Nat
  | [] => base.drop offs
  | f :: rest =>
      ((base.take f.start).drop offs) ++ f.content ++ applyFrags base f.stop rest

namespace delta

/-- Modelled from the spec: `apply(base, delta)` reconstructs full content. -/
def apply (base : List Nat) (d : Delta) : List Nat :=
  applyFrags base 0 d.frags

end delta

/-! ### Changegroup delta chunks (mercurial-bundles changegroup) -/

structure CgDeltaChunk where
  node : NodeHash
  p1 : NodeHash
  p2 : NodeHash
  base : NodeHash
  linknode : NodeHash
  delta : Delta
  deriving DecidableEq

/-- bundle2-resolver/src/changegroup/changeset.rs: a changegroup chunk tagged
as belonging to the changeset section. -/
structure ChangesetDeltaed where
  chunk : CgDeltaChunk
  deriving DecidableEq

/-- Modelled from the spec: `RevlogChangeset` (mercurial changeset module is
not among the visible sources). Per the spec the canonical object is
`{ parent1?, parent2?, content }` with the content held as an opaque byte
blob; constructing it from a blob node never fails on opaque content. -/
structure RevlogChangeset where
  p1 : Option NodeHash
  p2 : Option NodeHash
  content : List Nat
  deriving DecidableEq

/-- The body of the `and_then` in `convert_to_revlog_changesets`
(bundle2-resolver/src/changegroup/changeset.rs lines 26-62): enforce
`base == NULL_HASH` and `node == linknode`, substitute null-hash parents by
`none`, and apply the delta to the empty base. -/
def convertChunk (d : ChangesetDeltaed) : Except String (NodeHash × RevlogChangeset) :=
  let c := d.chunk
  if c.base ≠ NULL_HASH then
    Except.error "Changeset chunk base should be equal to root commit, because it is never deltaed"
  else if c.node ≠ c.linknode then
    Except.error "Changeset chunk node should be equal to linknode"
  else
    let p1 := if c.p1 = NULL_HASH then none else some c.p1
    let p2 := if c.p2 = NULL_HASH then none else some c.p2
    let content := delta.apply [] c.delta
    Except.ok (c.node, RevlogChangeset.mk p1 p2 content)

/-- bundle2-resolver/src/changegroup/changeset.rs `convert_to_revlog_changesets`:
the input stream is processed element by element with `and_then`; the first
failing element aborts the stream. The stream is modelled as a list; the
result is the list of emitted pairs plus the error that ended the stream,
if any. -/
def convert_to_revlog_changesets :
    List ChangesetDeltaed → List (NodeHash × RevlogChangeset) × Option String
  | [] => ([], none)
  | d :: rest =>
      match convertChunk d with
      | Except.error e => ([], some e)
      | Except.ok v =>
          let r := convert_to_revlog_changesets rest
          (v :: r.1, r.2)

/-- The decoder invariant for a changeset chunk: fulltext base, and
node equal to linknode. -/
def chunkValid (d : ChangesetDeltaed) : Bool :=
  d.chunk.base = NULL_HASH && d.chunk.node = d.chunk.linknode

/-- The pair emitted for a valid changeset chunk. -/
def emitOf (d : ChangesetDeltaed) : NodeHash × RevlogChangeset :=
  (d.chunk.node,
    RevlogChangeset.mk
      (if d.chunk.p1 = NULL_HASH then none else some d.chunk.p1)
      (if d.chunk.p2 = NULL_HASH then none else some d.chunk.p2)
      (delta.apply [] d.chunk.delta))

/-- The error message produced for an invalid changeset chunk. -/
def errOf (d : ChangesetDeltaed) : String :=
  if d.chunk.base ≠ NULL_HASH then
    "Changeset chunk base should be equal to root commit, because it is never deltaed"
  else
    "Changeset chunk node should be equal to linknode"

/-! ### Parents of a blob node (mercurial-types) -/

/-- `HgParents`: zero, one or two parent hashes. Modelled from the spec
(the parents type lives in mercurial-types, outside the visible sources):
first parent, second parent, each optional. -/
inductive HgParents where
  | NoneP : HgParents
  | One : NodeHash → HgParents
  | Two : NodeHash → NodeHash → HgParents
  deriving DecidableEq

/-- `HgParents::get_nodes`: the pair of optional parent hashes. -/
def HgParents.get_nodes : HgParents → Option NodeHash × Option NodeHash
  | HgParents.NoneP => (none, none)
  | HgParents.One p1 => (some p1, none)
  | HgParents.Two p1 p2 => (some p1, some p2)

/-- A blob node: optional inner blob bytes (`HgBlob::as_inner` returns an
option) plus the parents. -/
structure HgBlobNode where
  blob : Option (List Nat)
  parents : HgParents
  deriving DecidableEq

/-! ### Changegroup part encoder (mercurial-bundles/src/parts/mod.rs) -/

inductive Section where
  | Changeset : Section
  | Manifest : Section
  | Filelog : Section
  deriving DecidableEq

/-- A changegroup stream part (mercurial-bundles changegroup::Part). -/
inductive CgPart where
  | CgChunk : Section → CgDeltaChunk → CgPart
  | SectionEnd : Section → CgPart
  | End : CgPart
  deriving DecidableEq

/-- The `map` body of `changegroup_part` (parts/mod.rs lines 57-80): base is
always null, linknode always equals node, the delta is a fulltext of the
inner blob bytes (empty bytes when the blob has no inner bytes), absent
parents become the null hash. -/
def cgChunkOfEntry (node : NodeHash) (blobnode : HgBlobNode) : CgPart :=
  let parents := blobnode.parents.get_nodes
  let p1 := parents.1.getD NULL_HASH
  let p2 := parents.2.getD NULL_HASH
  let base := NULL_HASH
  let linknode := node
  let text := blobnode.blob.getD []
  let delta := Delta.new_fulltext text
  CgPart.CgChunk Section.Changeset (CgDeltaChunk.mk node p1 p2 base linknode delta)

/-- `changegroup_part` (parts/mod.rs lines 50-94): the chunk stream followed
by the Changeset section end, a Manifest section end (present even though the
section is empty) and the stream end. The stream of entries is modelled as a
list; the part payload is the list of changegroup parts handed to the packer. -/
def changegroup_part (changelogentries : List (NodeHash × HgBlobNode)) : List CgPart :=
  (changelogentries.map fun e => cgChunkOfEntry e.1 e.2)
    ++ [CgPart.SectionEnd Section.Changeset]
    ++ [CgPart.SectionEnd Section.Manifest]
    ++ [CgPart.End]

/-! ### Reply part status encoding (mercurial-bundles/src/parts/mod.rs) -/

/-- Wrap an integer into the 64-bit two's-complement range
`[-2^63, 2^63)`, the release-mode semantics of Rust `i64` arithmetic. -/
def i64wrap (n : Int) : Int :=
  (n + 9223372036854775808) % 18446744073709551616 - 9223372036854775808

/-- Wrapping 64-bit signed addition, as performed by `+` on `i64`. -/
def i64add (a b : Int) : Int := i64wrap (a + b)

/-- `ChangegroupApplyResult` (parts/mod.rs lines 160-163); the
`heads_num_diff` field is an `i64`, so its values range over
`[-2^63, 2^63)` and arithmetic on it wraps. -/
inductive ChangegroupApplyResult where
  | Success : Int → ChangegroupApplyResult
  | Error : ChangegroupApplyResult
  deriving DecidableEq

/-- The `fmt::Display` implementation for `ChangegroupApplyResult`
(parts/mod.rs lines 185-198): `0` for an error; for success with head
difference `d`, the decimal rendering of the `i64` sum `1 + d` when
`d >= 0` and of `-1 + d` otherwise — the sums are 64-bit additions and
wrap at the `i64` boundary. -/
def ChangegroupApplyResult.display : ChangegroupApplyResult → String
  | ChangegroupApplyResult.Success heads_num_diff =>
      if heads_num_diff ≥ 0 then toString (i64add 1 heads_num_diff)
      else toString (i64add (-1) heads_num_diff)
  | ChangegroupApplyResult.Error => "0"

/-! ### Paths and the tree-pack part encoder -/

/-- A path element (a single file or directory name), as raw bytes. -/
abbrev MPathElement : Type := List Nat

/-- A non-empty path: the list of its elements. Modelled from the spec
(mercurial-types path module is outside the visible sources). -/
structure MPath where
  elements : List MPathElement
  deriving DecidableEq

/-- Modelled from the spec: `MPath::join_element_opt` joins an optional base
path with an optional trailing element; when both are absent there is no
path. -/
def MPath.join_element_opt : Option MPath → Option MPathElement → Option MPath
  | path, none => path
  | none, some e => some (MPath.mk [e])
  | some p, some e => some (MPath.mk (p.elements ++ [e]))

inductive RepoPath where
  | RootPath : RepoPath
  | DirectoryPath : MPath → RepoPath
  | FilePath : MPath → RepoPath
  deriving DecidableEq

namespace wirepack

/-- wirepack history entry (node, parents with null-hash for absent parents,
linknode; no copy source for trees). -/
structure HistoryEntry where
  node : NodeHash
  p1 : NodeHash
  p2 : NodeHash
  linknode : NodeHash
  copy_from : Option RepoPath
  deriving DecidableEq

/-- wirepack data entry: node plus a delta against `delta_base`. -/
structure DataEntry where
  node : NodeHash
  delta_base : NodeHash
  delta : Delta
  deriving DecidableEq

/-- A wirepack stream part. -/
inductive Part where
  | HistoryMeta : RepoPath → Nat → Part
  | History : HistoryEntry → Part
  | DataMeta : RepoPath → Nat → Part
  | Data : DataEntry → Part
  | End : Part
  deriving DecidableEq

end wirepack

/-- parts/mod.rs `TreepackPartInput`. -/
structure TreepackPartInput where
  node : NodeHash
  p1 : Option NodeHash
  p2 : Option NodeHash
  content : List Nat
  name : Option MPathElement
  linknode : NodeHash
  basepath : Option MPath
  deriving DecidableEq

/-- parts/mod.rs line 115: the bounded look-ahead window used by
`treepack_part` when draining its input entries. -/
def treepack_buffer_size : Nat := 10000

/-- The `map` body of `treepack_part` (parts/mod.rs lines 118-150): per
entry, a history-meta part and a history part for the entry's path, then a
data-meta part and a data part carrying a fulltext delta of the content with
a null delta base. -/
def treepackEntryParts (input : TreepackPartInput) : List wirepack.Part :=
  let path :=
    match MPath.join_element_opt input.basepath input.name with
    | some path => RepoPath.DirectoryPath path
    | none => RepoPath.RootPath
  let history_meta := wirepack.Part.HistoryMeta path 1
  let history := wirepack.Part.History
    (wirepack.HistoryEntry.mk input.node (input.p1.getD NULL_HASH)
      (input.p2.getD NULL_HASH) input.linknode none)
  let data_meta := wirepack.Part.DataMeta path 1
  let data := wirepack.Part.Data
    (wirepack.DataEntry.mk input.node NULL_HASH (Delta.new_fulltext input.content))
  [history_meta, history, data_meta, data]

/-- `treepack_part` (parts/mod.rs lines 106-158): entries are drained with
the bounded `buffered` window (which preserves order, so the list model is
the flattened map), followed by the stream terminator. -/
def treepack_part (entries : List TreepackPartInput) : List wirepack.Part :=
  (entries.map treepackEntryParts).flatten ++ [wirepack.Part.End]

/-! ### Thrift representation of manifest envelopes (mercurial-types) -/

namespace thrift

/-- thrift `HgNodeHash` (a wrapped `Sha1` byte vector of any length; length
is validated only on conversion to the typed hash). -/
abbrev HgNodeHash : Type := List Nat

/-- thrift `HgManifestEnvelope`: every field that is optional on the wire is
an `Option`. -/
structure HgManifestEnvelope where
  node_id : HgNodeHash
  p1 : Option HgNodeHash
  p2 : Option HgNodeHash
  computed_node_id : HgNodeHash
  contents : Option (List Nat)
  deriving DecidableEq

end thrift

/-- `HgNodeHash::from_thrift` (mercurial-types nodehash, outside the visible
sources). Modelled from the spec: a node hash is a fixed-length digest, so a
thrift hash of the wrong length is a conversion error. -/
def HgNodeHash.from_thrift (h : thrift.HgNodeHash) : Except String NodeHash :=
  if hl : h.length = 20 then Except.ok ⟨h, hl⟩
  else Except.error "invalid sha-1 input: need exactly 20 bytes"

/-- `HgNodeHash::from_thrift_opt`: absent hashes stay absent. -/
def HgNodeHash.from_thrift_opt :
    Option thrift.HgNodeHash → Except String (Option NodeHash)
  | none => Except.ok none
  | some h => (HgNodeHash.from_thrift h).map some

/-- `HgNodeHash::into_thrift`: the raw digest bytes. -/
def HgNodeHash.into_thrift (n : NodeHash) : thrift.HgNodeHash := n.val

/-! ### Manifest envelopes (mercurial-types/src/envelope/manifest_envelope.rs) -/

/-- The error kinds of the envelope codec (mercurial-types errors plus the
`SerializationFailed` kind of blobrepo). -/
inductive ErrorKind where
  | InvalidThrift : String → String → ErrorKind
  | BlobDeserializeError : String → ErrorKind
  | SerializationFailed : NodeHash → String → ErrorKind
  deriving DecidableEq

structure HgManifestEnvelopeMut where
  node_id : NodeHash
  p1 : Option NodeHash
  p2 : Option NodeHash
  computed_node_id : NodeHash
  contents : List Nat
  deriving DecidableEq

structure HgManifestEnvelope where
  inner : HgManifestEnvelopeMut
  deriving DecidableEq

/-- The `catch_block` body of `HgManifestEnvelope::from_thrift`
(manifest_envelope.rs lines 44-55): convert every field, requiring the
contents field to be present. -/
def manifestEnvelopeCatchBlock (fe : thrift.HgManifestEnvelope) :
    Except String HgManifestEnvelope := do
  let node_id ← HgNodeHash.from_thrift fe.node_id
  let p1 ← HgNodeHash.from_thrift_opt fe.p1
  let p2 ← HgNodeHash.from_thrift_opt fe.p2
  let computed_node_id ← HgNodeHash.from_thrift fe.computed_node_id
  let contents ←
    match fe.contents with
    | some c => Except.ok c
    | none => Except.error "missing contents field"
  Except.ok (HgManifestEnvelope.mk
    (HgManifestEnvelopeMut.mk node_id p1 p2 computed_node_id contents))

/-- `HgManifestEnvelope::from_thrift` (manifest_envelope.rs lines 43-63): any
failure inside the catch block surfaces as `InvalidThrift` naming
`HgManifestEnvelope`. -/
def HgManifestEnvelope.from_thrift (fe : thrift.HgManifestEnvelope) :
    Except ErrorKind HgManifestEnvelope :=
  match manifestEnvelopeCatchBlock fe with
  | Except.ok v => Except.ok v
  | Except.error _ =>
      Except.error (ErrorKind.InvalidThrift "HgManifestEnvelope" "Invalid manifest envelope")

/-- `HgManifestEnvelope::into_thrift` (manifest_envelope.rs lines 104-113). -/
def HgManifestEnvelope.into_thrift (e : HgManifestEnvelope) : thrift.HgManifestEnvelope :=
  let inner := e.inner
  thrift.HgManifestEnvelope.mk
    (HgNodeHash.into_thrift inner.node_id)
    (inner.p1.map HgNodeHash.into_thrift)
    (inner.p2.map HgNodeHash.into_thrift)
    (HgNodeHash.into_thrift inner.computed_node_id)
    (some inner.contents)

/-! ### Compact-protocol codec

Modelled from the spec: the thrift compact-protocol binary codec is an
external library; per the spec it is a canonical binary representation with
a round-trip law. It is modelled as a length-prefixed field encoding with a
tag byte for optional fields; decoding consumes the whole buffer or fails. -/

namespace compact_protocol

/-- Length-prefixed byte-list encoding. -/
def encList (l : List Nat) : List Nat := l.length :: l

/-- Tagged optional encoding. -/
def encOpt : Option (List Nat) → List Nat
  | none => [0]
  | some l => 1 :: encList l

/-- Modelled from the spec: serialize a thrift manifest envelope. -/
def serialize (t : thrift.HgManifestEnvelope) : List Nat :=
  encList t.node_id ++ encOpt t.p1 ++ encOpt t.p2
    ++ encList t.computed_node_id ++ encOpt t.contents

/-- Decode a length-prefixed byte list, returning the rest of the buffer. -/
def decList : List Nat → Option (List Nat × List Nat)
  | [] => none
  | n :: rest =>
      if n ≤ rest.length then some (rest.take n, rest.drop n) else none

/-- Decode a tagged optional byte list, returning the rest of the buffer. -/
def decOpt : List Nat → Option (Option (List Nat) × List Nat)
  | [] => none
  | 0 :: rest => some (none, rest)
  | 1 :: rest => (decList rest).map fun p => (some p.1, p.2)
  | _ :: _ => none

/-- Modelled from the spec: deserialize a thrift manifest envelope, failing
on malformed or trailing input. -/
def deserialize (blob : List Nat) : Except String thrift.HgManifestEnvelope :=
  match decList blob with
  | none => Except.error "compact protocol: bad node_id"
  | some (node_id, rest) =>
    match decOpt rest with
    | none => Except.error "compact protocol: bad p1"
    | some (p1, rest) =>
      match decOpt rest with
      | none => Except.error "compact protocol: bad p2"
      | some (p2, rest) =>
        match decList rest with
        | none => Except.error "compact protocol: bad computed_node_id"
        | some (computed_node_id, rest) =>
          match decOpt rest with
          | none => Except.error "compact protocol: bad contents"
          | some (contents, rest) =>
            match rest with
            | [] => Except.ok
                (thrift.HgManifestEnvelope.mk node_id p1 p2 computed_node_id contents)
            | _ => Except.error "compact protocol: trailing bytes"

end compact_protocol

/-- `HgManifestEnvelope::from_blob` (manifest_envelope.rs lines 65-71): a
compact-protocol decode failure surfaces as `BlobDeserializeError` naming
`HgManifestEnvelope`; a decodable blob is then converted with
`from_thrift`. -/
def HgManifestEnvelope.from_blob (blob : List Nat) :
    Except ErrorKind HgManifestEnvelope :=
  match compact_protocol.deserialize blob with
  | Except.error _ => Except.error (ErrorKind.BlobDeserializeError "HgManifestEnvelope")
  | Except.ok t => HgManifestEnvelope.from_thrift t

/-- `HgManifestEnvelope::into_blob` (manifest_envelope.rs lines 117-120). -/
def HgManifestEnvelope.into_blob (e : HgManifestEnvelope) : List Nat :=
  compact_protocol.serialize e.into_thrift

/-! ### RawNodeBlob (blobrepo/src/utils.rs) -/

/-- A blob hash is a node-hash-shaped digest of blob contents. -/
abbrev HgBlobHash : Type := NodeHash

structure RawNodeBlob where
  parents : HgParents
  blob : HgBlobHash
  deriving DecidableEq

/-! Modelled from the spec: the bincode codec is an external library with the
round-trip law; `HgParents` is encoded as a tag byte followed by the raw
fixed-length digests, `RawNodeBlob` as the parents followed by the blob
hash. The encoder is typed fallible (mirroring the library signature) but
never fails on these types. -/

namespace bincode

def encParents : HgParents → List Nat
  | HgParents.NoneP => [0]
  | HgParents.One p1 => 1 :: p1.val
  | HgParents.Two p1 p2 => 2 :: (p1.val ++ p2.val)

/-- Modelled from the spec: `bincode::serialize` for `RawNodeBlob`. -/
def serialize (x : RawNodeBlob) : Except String (List Nat) :=
  Except.ok (encParents x.parents ++ x.blob.val)

/-- Decode a fixed 20-byte digest, returning the rest of the buffer. -/
def decHash (l : List Nat) : Option (NodeHash × List Nat) :=
  if hl : (l.take 20).length = 20 then some (⟨l.take 20, hl⟩, l.drop 20)
  else none

/-- Modelled from the spec: `bincode::deserialize` for `RawNodeBlob`,
failing on malformed or trailing input. -/
def deserialize (blob : List Nat) : Except String RawNodeBlob :=
  match blob with
  | 0 :: rest =>
      (match decHash rest with
       | some (b, []) => Except.ok (RawNodeBlob.mk HgParents.NoneP b)
       | _ => Except.error "bincode: bad blob hash")
  | 1 :: rest =>
      (match decHash rest with
       | some (p1, rest) =>
          (match decHash rest with
           | some (b, []) => Except.ok (RawNodeBlob.mk (HgParents.One p1) b)
           | _ => Except.error "bincode: bad blob hash")
       | none => Except.error "bincode: bad parent hash")
  | 2 :: rest =>
      (match decHash rest with
       | some (p1, rest) =>
          (match decHash rest with
           | some (p2, rest) =>
              (match decHash rest with
               | some (b, []) => Except.ok (RawNodeBlob.mk (HgParents.Two p1 p2) b)
               | _ => Except.error "bincode: bad blob hash")
           | none => Except.error "bincode: bad parent hash")
       | none => Except.error "bincode: bad parent hash")
  | _ => Except.error "bincode: bad parents tag"

end bincode

/-- `RawNodeBlob::serialize` (utils.rs lines 24-28): an encoding failure is
wrapped as `SerializationFailed` carrying the attempted node hash. -/
def RawNodeBlob.serialize (x : RawNodeBlob) (nodeid : NodeHash) :
    Except ErrorKind (List Nat) :=
  match bincode.serialize x with
  | Except.ok bytes => Except.ok bytes
  | Except.error err => Except.error (ErrorKind.SerializationFailed nodeid err)

/-- `RawNodeBlob::deserialize` (utils.rs lines 30-32). -/
def RawNodeBlob.deserialize (blob : List Nat) : Except String RawNodeBlob :=
  bincode.deserialize blob

/-! ### Blobimport changeset upload (cmds/blobimport/changeset.rs) -/

/-- The command-line selection that `upload_changesets` reads from its
`ArgMatches`: an optional explicit target changeset, an optional skip count
and an optional commit limit. Only presence matters for the import mode. -/
structure BlobimportArgs where
  changeset : Option String
  skip : Option Nat
  commits_limit : Option Nat
  deriving DecidableEq

/-- changeset.rs line 237: the import covers a contiguous range from the
true start of history exactly when no explicit target changeset and no skip
count were given. The source's spelling of the name is kept. -/
def is_import_from_beggining (m : BlobimportArgs) : Bool :=
  m.changeset.isNone && m.skip.isNone

/-- A changeset handle, as seen by the parent-resolution step: either a
handle already present in the session's parent-handle map, or a handle
freshly built from a direct store lookup by changeset id
(`ChangesetHandle::from(blobrepo.get_changeset_by_changesetid(..))`). -/
inductive ChangesetHandle where
  | inflight : NodeHash → ChangesetHandle
  | fromStoreLookup : NodeHash → ChangesetHandle
  deriving DecidableEq

/-- The parent-resolution closure of `upload_changesets` (changeset.rs lines
300-312): a handle found in the map is used as is; a missing handle is fatal
(`expect`, modelled as `none`) when importing from the beginning, and
otherwise falls back to a direct store lookup by the parent's id. -/
def resolveParentHandle (isBeg : Bool)
    (parent_changeset_handles : NodeHash → Option ChangesetHandle)
    (p : NodeHash) : Option ChangesetHandle :=
  match parent_changeset_handles p with
  | some h => some h
  | none =>
      if isBeg then none
      else some (ChangesetHandle.fromStoreLookup p)

/-! UTF-8 validation, modelled from the Rust standard library's
`String::from_utf8` (`run_utf8_validation`): ASCII bytes stand alone;
multi-byte sequences have a constrained first continuation byte ruling out
overlong encodings and surrogates, and all further bytes are plain
continuation bytes. -/

/-- A UTF-8 continuation byte. -/
def isCont (b : Nat) : Bool := 0x80 ≤ b && b ≤ 0xBF

/-- Whether a byte list is valid UTF-8. -/
def validUtf8 : List Nat → Bool
  | [] => true
  | b :: rest =>
      if b ≤ 0x7F then validUtf8 rest
      else if 0xC2 ≤ b && b ≤ 0xDF then
        match rest with
        | c1 :: rest2 => isCont c1 && validUtf8 rest2
        | [] => false
      else if b = 0xE0 then
        match rest with
        | c1 :: c2 :: rest2 =>
            (0xA0 ≤ c1 && c1 ≤ 0xBF) && isCont c2 && validUtf8 rest2
        | _ => false
      else if (0xE1 ≤ b && b ≤ 0xEC) || (0xEE ≤ b && b ≤ 0xEF) then
        match rest with
        | c1 :: c2 :: rest2 => isCont c1 && isCont c2 && validUtf8 rest2
        | _ => false
      else if b = 0xED then
        match rest with
        | c1 :: c2 :: rest2 =>
            (0x80 ≤ c1 && c1 ≤ 0x9F) && isCont c2 && validUtf8 rest2
        | _ => false
      else if b = 0xF0 then
        match rest with
        | c1 :: c2 :: c3 :: rest2 =>
            (0x90 ≤ c1 && c1 ≤ 0xBF) && isCont c2 && isCont c3 && validUtf8 rest2
        | _ => false
      else if 0xF1 ≤ b && b ≤ 0xF3 then
        match rest with
        | c1 :: c2 :: c3 :: rest2 =>
            isCont c1 && isCont c2 && isCont c3 && validUtf8 rest2
        | _ => false
      else if b = 0xF4 then
        match rest with
        | c1 :: c2 :: c3 :: rest2 =>
            (0x80 ≤ c1 && c1 ≤ 0x8F) && isCont c2 && isCont c3 && validUtf8 rest2
        | _ => false
      else false

/-- The changeset fields the upload step reads from a parsed revlog
changeset record: the raw parents list, the raw user and comments byte
strings (converted with `String::from_utf8` in the source). -/
structure RevlogCsRecord where
  parents : List NodeHash
  user : List Nat
  comments : List Nat
  deriving DecidableEq

/-- The `CreateChangeset` request assembled by `upload_changesets`
(changeset.rs lines 317-330), with the validated byte fields kept as byte
lists. -/
structure CreateChangeset where
  expected_nodeid : NodeHash
  p1 : Option ChangesetHandle
  p2 : Option ChangesetHandle
  user : List Nat
  comments : List Nat
  deriving DecidableEq

/-- The outcome of the final `map` stage of `upload_changesets` for one
revision (changeset.rs lines 296-338): either the process aborts (an
`expect` fired — a missing parent handle when importing from the beginning,
or a non-UTF-8 user or comments field), or a create-changeset request is
scheduled whose completion future carries the per-revision error wrapping. -/
inductive RevUploadOutcome where
  | aborted : String → RevUploadOutcome
  | scheduled : CreateChangeset → RevUploadOutcome
  deriving DecidableEq

def RevUploadOutcome.isAborted : RevUploadOutcome → Bool
  | RevUploadOutcome.aborted _ => true
  | RevUploadOutcome.scheduled _ => false

/-- The final `map` stage of `upload_changesets` for one revision
(changeset.rs lines 296-338): resolve the two parent handles, then build the
`CreateChangeset` request, panicking (not returning a typed error) when the
user or comments bytes are not valid UTF-8. -/
def processRevision (isBeg : Bool)
    (parent_changeset_handles : NodeHash → Option ChangesetHandle)
    (csid : NodeHash) (cs : RevlogCsRecord) : RevUploadOutcome :=
  let handles := cs.parents.map (resolveParentHandle isBeg parent_changeset_handles)
  if handles.contains none then
    RevUploadOutcome.aborted "parent not found"
  else if ¬ validUtf8 cs.user then
    RevUploadOutcome.aborted "non-utf8 username"
  else if ¬ validUtf8 cs.comments then
    RevUploadOutcome.aborted "non-utf8 comments"
  else
    RevUploadOutcome.scheduled
      (CreateChangeset.mk csid (handles.getD 0 none) (handles.getD 1 none)
        cs.user cs.comments)

/-! ### Completion ordering of the upload futures

`upload_changesets` hands `CreateChangeset` the root-manifest future, the
entry futures and the two parent handles (changeset.rs lines 317-331).
Modelled from the spec: `create_changeset` lives in blobrepo outside the
visible sources; per the spec, a changeset handle's `completed()` future
resolves only after the futures it was created from. Completion order is
modelled as a trace of future identifiers in which a future may be appended
only once all its dependencies already appear. -/

/-- The futures of an import run, per source revision index: the
root-manifest upload, the changed-entry uploads, and the changeset itself. -/
inductive FutId where
  | rootmf : Nat → FutId
  | entry : Nat → Nat → FutId
  | cs : Nat → FutId
  deriving DecidableEq

/-- The dependencies wired by `upload_changesets`: revision `r`'s changeset
future is created from its root-manifest future, its entry futures and the
changeset futures of its parents; the other futures are unconstrained by the
claim. `parents r` lists the indices of `r`'s non-null parents, `nentries r`
the number of changed entries. -/
def uploadDeps (parents : Nat → List Nat) (nentries : Nat → Nat) : FutId → List FutId
  | FutId.cs r =>
      FutId.rootmf r :: ((List.range (nentries r)).map (FutId.entry r)
        ++ (parents r).map FutId.cs)
  | _ => []

/-- A completion trace is valid when every future completes only after all
of its dependencies have completed. -/
inductive ValidTrace (deps : FutId → List FutId) : List FutId → Prop where
  | nil : ValidTrace deps []
  | snoc {tr : List FutId} {f : FutId} : ValidTrace deps tr →
      (∀ d ∈ deps f, d ∈ tr) → ValidTrace deps (tr ++ [f])

/-! ## Theorems -/

theorem i64wrap_eq_of_range (n : Int) (h1 : -9223372036854775808 ≤ n)
    (h2 : n < 9223372036854775808) : i64wrap n = n := by
  unfold i64wrap
  rw [Int.emod_eq_of_lt (by omega) (by omega)]
  omega

/-- C3 counterexample: at `heads_num_diff = i64::MAX` the source's `i64` sum
`1 + heads_num_diff` wraps to `i64::MIN`, so the formatted string is not the
decimal rendering of the mathematical `1 + d`. -/
theorem changegroup_apply_result_display_overflow_counterexample :
    ChangegroupApplyResult.display (ChangegroupApplyResult.Success 9223372036854775807) ≠
      toString (1 + (9223372036854775807 : Int)) := by
  decide

/-- C3 (amended): formatting a `ChangegroupApplyResult` yields `"0"` for
`Error`; for `Success` with head difference `d` it yields the decimal
rendering of the wrapping 64-bit sum `1 + d` when `d ≥ 0` and `-1 + d` when
`d < 0`, which is the decimal rendering of the exact `1 + d` (resp.
`-1 + d`) whenever the sum does not overflow `i64` — so for every `d` below
`i64::MAX` in the first case and above `i64::MIN` in the second; in
particular `Success {heads_num_diff: 2}` formats as `"3"` and
`Success {heads_num_diff: -1}` formats as `"-2"`. -/
theorem changegroup_apply_result_display_amended_spec :
    (∀ d : Int, 0 ≤ d → d < 9223372036854775807 →
      ChangegroupApplyResult.display (ChangegroupApplyResult.Success d) =
        toString (1 + d)) ∧
    (∀ d : Int, -9223372036854775808 < d → d < 0 →
      ChangegroupApplyResult.display (ChangegroupApplyResult.Success d) =
        toString (-1 + d)) ∧
    (∀ d : Int, ChangegroupApplyResult.display (ChangegroupApplyResult.Success d) =
      toString (if d ≥ 0 then i64add 1 d else i64add (-1) d)) ∧
    ChangegroupApplyResult.display ChangegroupApplyResult.Error = "0" ∧
    ChangegroupApplyResult.display (ChangegroupApplyResult.Success 2) = "3" ∧
    ChangegroupApplyResult.display (ChangegroupApplyResult.Success (-1)) = "-2" := by
  refine ⟨fun d h0 h1 => ?_, fun d h0 h1 => ?_, fun d => ?_, rfl, by decide, by decide⟩
  · have hw : i64add 1 d = 1 + d :=
      i64wrap_eq_of_range (1 + d) (by omega) (by omega)
    have hge : d ≥ 0 := h0
    simp [ChangegroupApplyResult.display, hge, hw]
  · have hw : i64add (-1) d = -1 + d :=
      i64wrap_eq_of_range (-1 + d) (by omega) (by omega)
    have hlt : ¬ d ≥ 0 := by omega
    simp [ChangegroupApplyResult.display, hlt, hw]
  · by_cases h : d ≥ 0 <;> simp [ChangegroupApplyResult.display, h]

/-- C3 witness: the exact-sum renderings at concrete in-range differences,
with the range hypotheses discharged by computation. -/
theorem changegroup_apply_result_display_amended_spec_witness :
    ChangegroupApplyResult.display (ChangegroupApplyResult.Success 5) =
        toString (1 + (5 : Int)) ∧
    ChangegroupApplyResult.display (ChangegroupApplyResult.Success (-5)) =
        toString (-1 + (-5 : Int)) :=
  ⟨changegroup_apply_result_display_amended_spec.1 5 (by decide) (by decide),
   changegroup_apply_result_display_amended_spec.2.1 (-5) (by decide) (by decide)⟩

/-- C5: the changegroup part emits exactly one delta chunk per input pair in
stream order — base the null hash, linknode equal to node, a fulltext delta
of the object's content, absent parents encoded as the null hash — then a
Changeset section terminator, a Manifest section terminator (for the empty
section), and the stream terminator. -/
theorem changegroup_part_spec :
    ∀ changelogentries : List (NodeHash × HgBlobNode),
    changegroup_part changelogentries =
      (changelogentries.map fun e =>
        CgPart.CgChunk Section.Changeset
          (CgDeltaChunk.mk e.1
            (e.2.parents.get_nodes.1.getD NULL_HASH)
            (e.2.parents.get_nodes.2.getD NULL_HASH)
            NULL_HASH e.1
            (Delta.new_fulltext (e.2.blob.getD []))))
      ++ [CgPart.SectionEnd Section.Changeset, CgPart.SectionEnd Section.Manifest,
          CgPart.End] := by
  intro changelogentries
  simp [changegroup_part, cgChunkOfEntry]

/-- C9: an object whose inner blob bytes are absent is silently encoded by
`changegroup_part` as a fulltext delta of the empty byte string — the part
stream is still produced and the emitted chunk's delta is
`new_fulltext []`. -/
theorem changegroup_part_absent_content_spec :
    ∀ (node : NodeHash) (ps : HgParents),
    changegroup_part [(node, HgBlobNode.mk none ps)] =
      [CgPart.CgChunk Section.Changeset
        (CgDeltaChunk.mk node (ps.get_nodes.1.getD NULL_HASH)
          (ps.get_nodes.2.getD NULL_HASH) NULL_HASH node (Delta.new_fulltext [])),
       CgPart.SectionEnd Section.Changeset, CgPart.SectionEnd Section.Manifest,
       CgPart.End] := by
  intro node ps
  simp [changegroup_part, cgChunkOfEntry]

/-- C8: per input entry the tree-pack part emits exactly four records in
order — history-meta and history for the entry's path, then data-meta and a
data record carrying a fulltext delta of the content against a null delta
base — the whole sequence followed by a single stream terminator; entries
are drained with a look-ahead window of 10000. -/
theorem treepack_part_spec :
    (∀ entries : List TreepackPartInput,
      treepack_part entries =
        (entries.map fun input =>
          let path :=
            match MPath.join_element_opt input.basepath input.name with
            | some path => RepoPath.DirectoryPath path
            | none => RepoPath.RootPath
          [wirepack.Part.HistoryMeta path 1,
           wirepack.Part.History
             (wirepack.HistoryEntry.mk input.node (input.p1.getD NULL_HASH)
               (input.p2.getD NULL_HASH) input.linknode none),
           wirepack.Part.DataMeta path 1,
           wirepack.Part.Data
             (wirepack.DataEntry.mk input.node NULL_HASH
               (Delta.new_fulltext input.content))]).flatten
        ++ [wirepack.Part.End]) ∧
    treepack_buffer_size = 10000 := by
  exact ⟨fun entries => rfl, rfl⟩

/-- C4: with a parent hash absent from the parent-handle map, resolution is
fatal exactly when importing a contiguous range from the true start of
history (no explicit target changeset and no skip count present), and
otherwise produces a handle looking the parent up directly in the
already-populated store by its identifier. -/
theorem resolve_parent_handle_spec :
    ∀ (m : BlobimportArgs) (handles : NodeHash → Option ChangesetHandle) (p : NodeHash),
    handles p = none →
    resolveParentHandle (is_import_from_beggining m) handles p =
      if m.changeset = none ∧ m.skip = none then none
      else some (ChangesetHandle.fromStoreLookup p) := by
  intro m handles p h
  by_cases hc : m.changeset = none <;> by_cases hs : m.skip = none <;>
    simp [resolveParentHandle, is_import_from_beggining, h, hc, hs, Option.isNone_iff_eq_none]

/-- C4 witness: a missing parent handle is fatal when neither a target
changeset nor a skip count is present. -/
theorem resolve_parent_handle_spec_witness :
    resolveParentHandle (is_import_from_beggining (BlobimportArgs.mk none none none))
        (fun _ => none) NULL_HASH =
      if (none : Option String) = none ∧ (none : Option Nat) = none then none
      else some (ChangesetHandle.fromStoreLookup NULL_HASH) :=
  resolve_parent_handle_spec (BlobimportArgs.mk none none none) (fun _ => none) NULL_HASH rfl

/-- C10: whenever the user field or the comments field of a source changeset
is not valid UTF-8, the per-revision map stage of `upload_changesets` aborts
the process (an `expect` panic) instead of returning a scheduled revision
whose completion future would carry a typed error. -/
theorem upload_changesets_non_utf8_aborts :
    ∀ (isBeg : Bool) (handles : NodeHash → Option ChangesetHandle)
      (csid : NodeHash) (cs : RevlogCsRecord),
    validUtf8 cs.user = false ∨ validUtf8 cs.comments = false →
    (processRevision isBeg handles csid cs).isAborted = true := by
  intro isBeg handles csid cs h
  simp only [processRevision]
  split
  · rfl
  · split
    · rfl
    · split
      · rfl
      · rename_i hu hc
        rcases h with h | h <;> simp [h] at hu hc

/-- C10 witness: a single `0xFF` byte in the user field aborts the revision's
processing. -/
theorem upload_changesets_non_utf8_aborts_witness :
    (processRevision true (fun _ => none) NULL_HASH
      (RevlogCsRecord.mk [] [255] [])).isAborted = true :=
  upload_changesets_non_utf8_aborts true (fun _ => none) NULL_HASH
    (RevlogCsRecord.mk [] [255] []) (Or.inl (by decide))

theorem convertChunk_of_valid (d : ChangesetDeltaed) (h : chunkValid d = true) :
    convertChunk d = Except.ok (emitOf d) := by
  have hb : d.chunk.base = NULL_HASH := by
    simp [chunkValid] at h; exact h.1
  have hn : d.chunk.node = d.chunk.linknode := by
    simp [chunkValid] at h; exact h.2
  simp [convertChunk, emitOf, hb, hn]

theorem convertChunk_of_invalid (d : ChangesetDeltaed) (h : chunkValid d = false) :
    convertChunk d = Except.error (errOf d) := by
  by_cases hb : d.chunk.base = NULL_HASH
  · have hn : d.chunk.node ≠ d.chunk.linknode := by
      simp [chunkValid, hb] at h
      exact fun heq => by simp [heq] at h
    simp [convertChunk, errOf, hb, hn]
  · simp [convertChunk, errOf, hb]

/-- C1: for every changeset delta chunk fed to
`convert_to_revlog_changesets`, a chunk with `base ≠ NULL_HASH` or
`node ≠ linknode` fails the stream at that element (every earlier, valid
chunk is emitted and nothing after it), while a chunk with `base = NULL_HASH`
and `node = linknode` succeeds and emits `(node, changeset)` with the
changeset content equal to `apply([], delta)` and null-hash parents replaced
by `none` — stated as the closed form of the stream transform: the emitted
pairs are `emitOf` of the longest valid prefix, and the terminating error, if
any, is the error for the first invalid chunk. -/
theorem convert_to_revlog_changesets_spec :
    ∀ deltaed : List ChangesetDeltaed,
    convert_to_revlog_changesets deltaed =
      ((deltaed.takeWhile chunkValid).map emitOf,
        ((deltaed.dropWhile chunkValid).head?).map errOf) := by
  intro deltaed
  induction deltaed with
  | nil => simp [convert_to_revlog_changesets]
  | cons d rest ih =>
    by_cases h : chunkValid d
    · simp [convert_to_revlog_changesets, convertChunk_of_valid d h, ih,
        List.takeWhile_cons, List.dropWhile_cons, h]
    · have h' : chunkValid d = false := by simpa using h
      simp [convert_to_revlog_changesets, convertChunk_of_invalid d h',
        List.takeWhile_cons, List.dropWhile_cons, h']

theorem decList_encList (l rest : List Nat) :
    compact_protocol.decList (compact_protocol.encList l ++ rest) = some (l, rest) := by
  simp [compact_protocol.encList, compact_protocol.decList]

theorem decOpt_encOpt (o : Option (List Nat)) (rest : List Nat) :
    compact_protocol.decOpt (compact_protocol.encOpt o ++ rest) = some (o, rest) := by
  cases o with
  | none => simp [compact_protocol.encOpt, compact_protocol.decOpt]
  | some l =>
      simp [compact_protocol.encOpt, compact_protocol.decOpt, decList_encList]

theorem compact_deserialize_serialize (t : thrift.HgManifestEnvelope) :
    compact_protocol.deserialize (compact_protocol.serialize t) = Except.ok t := by
  obtain ⟨node_id, p1, p2, computed_node_id, contents⟩ := t
  have h : compact_protocol.serialize
      (thrift.HgManifestEnvelope.mk node_id p1 p2 computed_node_id contents) =
      compact_protocol.encList node_id ++ (compact_protocol.encOpt p1
        ++ (compact_protocol.encOpt p2 ++ (compact_protocol.encList computed_node_id
          ++ (compact_protocol.encOpt contents ++ [])))) := by
    simp [compact_protocol.serialize]
  rw [h]
  have hlast : compact_protocol.decOpt (compact_protocol.encOpt contents) =
      some (contents, []) := by
    simpa using decOpt_encOpt contents []
  simp [compact_protocol.deserialize, decList_encList, decOpt_encOpt, hlast]

theorem hgnodehash_from_into (n : NodeHash) :
    HgNodeHash.from_thrift (HgNodeHash.into_thrift n) = Except.ok n := by
  simp [HgNodeHash.from_thrift, HgNodeHash.into_thrift, n.2]

theorem envelope_from_thrift_into_thrift (o : HgManifestEnvelope) :
    HgManifestEnvelope.from_thrift o.into_thrift = Except.ok o := by
  obtain ⟨node_id, p1, p2, computed_node_id, contents⟩ := o
  have hcb : manifestEnvelopeCatchBlock
      (HgManifestEnvelope.mk
        (HgManifestEnvelopeMut.mk node_id p1 p2 computed_node_id contents)).into_thrift =
      Except.ok (HgManifestEnvelope.mk
        (HgManifestEnvelopeMut.mk node_id p1 p2 computed_node_id contents)) := by
    cases p1 <;> cases p2 <;>
      simp [manifestEnvelopeCatchBlock, HgManifestEnvelope.into_thrift,
        HgNodeHash.from_thrift_opt, hgnodehash_from_into, Except.map] <;> rfl
  simp [HgManifestEnvelope.from_thrift, hcb]

theorem bincode_decHash_append (p : NodeHash) (rest : List Nat) :
    bincode.decHash (p.val ++ rest) = some (p, rest) := by
  have h1 : (p.val ++ rest).take 20 = p.val := by
    have h0 := List.take_left p.val rest
    rw [p.2] at h0
    exact h0
  have h2 : (p.val ++ rest).drop 20 = rest := by
    have h0 := List.drop_left p.val rest
    rw [p.2] at h0
    exact h0
  simp [bincode.decHash, h1, h2, p.2]

theorem bincode_roundtrip (x : RawNodeBlob) :
    bincode.deserialize (bincode.encParents x.parents ++ x.blob.val) = Except.ok x := by
  obtain ⟨parents, blob⟩ := x
  have hblob : ∀ rest : List Nat, rest = blob.val →
      bincode.decHash rest = some (blob, []) := by
    intro rest h
    subst h
    have := bincode_decHash_append blob []
    simpa using this
  cases parents with
  | NoneP =>
      simp [bincode.encParents, bincode.deserialize, hblob blob.val rfl]
  | One p1 =>
      simp [bincode.encParents, bincode.deserialize, bincode_decHash_append,
        hblob blob.val rfl]
  | Two p1 p2 =>
      simp [bincode.encParents, bincode.deserialize, List.append_assoc,
        bincode_decHash_append, hblob blob.val rfl]

/-- C2: envelope round-trip — deserializing the serialization of a valid
manifest envelope yields it back, at the thrift level and at the blob level;
likewise `RawNodeBlob::deserialize` inverts `RawNodeBlob::serialize` for
every raw node blob. -/
theorem envelope_roundtrip_spec :
    (∀ o : HgManifestEnvelope, HgManifestEnvelope.from_thrift o.into_thrift = Except.ok o) ∧
    (∀ o : HgManifestEnvelope, HgManifestEnvelope.from_blob o.into_blob = Except.ok o) ∧
    (∀ (x : RawNodeBlob) (nodeid : NodeHash) (bytes : List Nat),
      RawNodeBlob.serialize x nodeid = Except.ok bytes →
      RawNodeBlob.deserialize bytes = Except.ok x) := by
  refine ⟨envelope_from_thrift_into_thrift, fun o => ?_, fun x nodeid bytes h => ?_⟩
  · simp [HgManifestEnvelope.from_blob, HgManifestEnvelope.into_blob,
      compact_deserialize_serialize, envelope_from_thrift_into_thrift]
  · have hb : bytes = bincode.encParents x.parents ++ x.blob.val := by
      simp [RawNodeBlob.serialize, bincode.serialize] at h
      exact h.symm
    rw [hb]
    exact bincode_roundtrip x

/-- C2 witness: the round trip at a concrete raw node blob (no parents, null
blob hash), with the serialization hypothesis discharged by computation. -/
theorem envelope_roundtrip_spec_witness :
    RawNodeBlob.deserialize (bincode.encParents HgParents.NoneP ++ NULL_HASH.val) =
      Except.ok (RawNodeBlob.mk HgParents.NoneP NULL_HASH) :=
  envelope_roundtrip_spec.2.2 (RawNodeBlob.mk HgParents.NoneP NULL_HASH) NULL_HASH
    (bincode.encParents HgParents.NoneP ++ NULL_HASH.val) rfl

theorem from_thrift_ok_length (h : List Nat) (n : NodeHash)
    (hh : HgNodeHash.from_thrift h = Except.ok n) : h.length = 20 := by
  by_cases hl : h.length = 20
  · exact hl
  · simp [HgNodeHash.from_thrift, hl] at hh

theorem catchBlock_ok_facts (fe : thrift.HgManifestEnvelope) (v : HgManifestEnvelope)
    (h : manifestEnvelopeCatchBlock fe = Except.ok v) :
    fe.contents = some v.inner.contents ∧ fe.node_id.length = 20 := by
  unfold manifestEnvelopeCatchBlock at h
  cases h1 : HgNodeHash.from_thrift fe.node_id with
  | error e => simp [h1, Bind.bind, Except.bind] at h
  | ok nid =>
    cases h2 : HgNodeHash.from_thrift_opt fe.p1 with
    | error e => simp [h1, h2, Bind.bind, Except.bind] at h
    | ok p1 =>
      cases h3 : HgNodeHash.from_thrift_opt fe.p2 with
      | error e => simp [h1, h2, h3, Bind.bind, Except.bind] at h
      | ok p2 =>
        cases h4 : HgNodeHash.from_thrift fe.computed_node_id with
        | error e => simp [h1, h2, h3, h4, Bind.bind, Except.bind] at h
        | ok cnid =>
          cases h5 : fe.contents with
          | none => simp [h1, h2, h3, h4, h5, Bind.bind, Except.bind] at h
          | some c =>
            simp [h1, h2, h3, h4, h5, Bind.bind, Except.bind] at h
            refine ⟨?_, from_thrift_ok_length fe.node_id nid h1⟩
            rw [← h]

/-- C7: the envelope codec error kinds — `RawNodeBlob::serialize` maps an
underlying encoding failure to `SerializationFailed` carrying the attempted
node hash; a blob the compact protocol cannot decode surfaces from
`HgManifestEnvelope::from_blob` as `BlobDeserializeError` naming
`HgManifestEnvelope`; a decoded structure with an absent contents field or
a node hash of the wrong length is always the `InvalidThrift` error naming
`HgManifestEnvelope`, never a valid object. -/
theorem envelope_error_kinds_spec :
    (∀ (x : RawNodeBlob) (nodeid : NodeHash),
      RawNodeBlob.serialize x nodeid =
        Except.mapError (ErrorKind.SerializationFailed nodeid) (bincode.serialize x)) ∧
    (∀ (blob : List Nat) (e : String),
      compact_protocol.deserialize blob = Except.error e →
      HgManifestEnvelope.from_blob blob =
        Except.error (ErrorKind.BlobDeserializeError "HgManifestEnvelope")) ∧
    (∀ fe : thrift.HgManifestEnvelope, fe.contents = none →
      HgManifestEnvelope.from_thrift fe =
        Except.error (ErrorKind.InvalidThrift "HgManifestEnvelope"
          "Invalid manifest envelope")) ∧
    (∀ fe : thrift.HgManifestEnvelope, fe.node_id.length ≠ 20 →
      HgManifestEnvelope.from_thrift fe =
        Except.error (ErrorKind.InvalidThrift "HgManifestEnvelope"
          "Invalid manifest envelope")) := by
  refine ⟨fun x nodeid => rfl, fun blob e h => ?_, fun fe h => ?_, fun fe h => ?_⟩
  · simp [HgManifestEnvelope.from_blob, h]
  · cases hcb : manifestEnvelopeCatchBlock fe with
    | error e => simp [HgManifestEnvelope.from_thrift, hcb]
    | ok v =>
        have := (catchBlock_ok_facts fe v hcb).1
        rw [h] at this
        exact absurd this (by simp)
  · cases hcb : manifestEnvelopeCatchBlock fe with
    | error e => simp [HgManifestEnvelope.from_thrift, hcb]
    | ok v => exact absurd ((catchBlock_ok_facts fe v hcb).2) h

/-- C7 witness: the empty blob is undecodable and yields the blob
deserialization error; a thrift envelope with absent contents, and one with
a 19-byte node hash, both yield the invalid-thrift error. -/
theorem envelope_error_kinds_spec_witness :
    (HgManifestEnvelope.from_blob [] =
      Except.error (ErrorKind.BlobDeserializeError "HgManifestEnvelope")) ∧
    (HgManifestEnvelope.from_thrift
        (thrift.HgManifestEnvelope.mk (List.replicate 20 1) (some (List.replicate 20 2))
          none (List.replicate 20 1) none) =
      Except.error (ErrorKind.InvalidThrift "HgManifestEnvelope"
        "Invalid manifest envelope")) ∧
    (HgManifestEnvelope.from_thrift
        (thrift.HgManifestEnvelope.mk (List.replicate 19 1) (some (List.replicate 20 2))
          none (List.replicate 20 1) (some [97, 98, 99])) =
      Except.error (ErrorKind.InvalidThrift "HgManifestEnvelope"
        "Invalid manifest envelope")) :=
  ⟨envelope_error_kinds_spec.2.1 [] "compact protocol: bad node_id" rfl,
   envelope_error_kinds_spec.2.2.1
     (thrift.HgManifestEnvelope.mk (List.replicate 20 1) (some (List.replicate 20 2))
       none (List.replicate 20 1) none) rfl,
   envelope_error_kinds_spec.2.2.2
     (thrift.HgManifestEnvelope.mk (List.replicate 19 1) (some (List.replicate 20 2))
       none (List.replicate 20 1) (some [97, 98, 99])) (by simp)⟩

theorem validTrace_deps_before (deps : FutId → List FutId) :
    ∀ {tr : List FutId}, ValidTrace deps tr →
    ∀ (i : Nat) (hi : i < tr.length), ∀ d ∈ deps tr[i],
    ∃ j, ∃ hj : j < tr.length, j < i ∧ tr[j] = d := by
  intro tr h
  induction h with
  | nil => intro i hi; exact absurd hi (by simp)
  | @snoc tr f hvt hdeps ih =>
      intro i hi d hd
      rcases Nat.lt_or_ge i tr.length with hlt | hge
      · rw [List.getElem_append_left hlt] at hd
        obtain ⟨j, hj, hji, hjd⟩ := ih i hlt d hd
        refine ⟨j, by simp; omega, hji, ?_⟩
        rw [List.getElem_append_left hj]
        exact hjd
      · have hieq : i = tr.length := by
          have := hi
          simp at this
          omega
        subst hieq
        have hf : (tr ++ [f])[tr.length] = f := by
          rw [List.getElem_append_right (Nat.le_refl _)]
          simp
        rw [hf] at hd
        have hmem : d ∈ tr := hdeps d hd
        obtain ⟨j, hj, hjd⟩ := List.getElem_of_mem hmem
        refine ⟨j, by simp; omega, hj, ?_⟩
        rw [List.getElem_append_left hj]
        exact hjd

/-- C6: in every valid completion trace of the upload futures, a revision's
changeset completion is never observed before its root-tree upload and the
changeset completions of its (non-null) parents: whenever the changeset
future of revision `r` appears in the trace, the root-manifest future of `r`
and the changeset futures of all of `r`'s parents appear strictly earlier. -/
theorem upload_changesets_parent_order_spec :
    ∀ (parents : Nat → List Nat) (nentries : Nat → Nat) (tr : List FutId),
    ValidTrace (uploadDeps parents nentries) tr →
    ∀ (r i : Nat) (hi : i < tr.length), tr[i] = FutId.cs r →
    (∃ j, ∃ hj : j < tr.length, j < i ∧ tr[j] = FutId.rootmf r) ∧
    (∀ p ∈ parents r, ∃ j, ∃ hj : j < tr.length, j < i ∧ tr[j] = FutId.cs p) := by
  intro parents nentries tr hv r i hi hcs
  constructor
  · apply validTrace_deps_before (uploadDeps parents nentries) hv i hi
    rw [hcs]
    simp [uploadDeps]
  · intro p hp
    apply validTrace_deps_before (uploadDeps parents nentries) hv i hi
    rw [hcs]
    simp [uploadDeps]
    exact hp

/-- C6 witness: in the two-revision history where revision 1 has parent 0, a
concrete valid completion trace puts revision 1's root manifest and revision
0's changeset strictly before revision 1's changeset. -/
theorem upload_changesets_parent_order_spec_witness :
    (∃ j, ∃ hj : j < ([FutId.rootmf 0, FutId.cs 0, FutId.rootmf 1,
        FutId.cs 1] : List FutId).length, j < 3 ∧
      ([FutId.rootmf 0, FutId.cs 0, FutId.rootmf 1,
        FutId.cs 1] : List FutId)[j] = FutId.rootmf 1) ∧
    (∀ p ∈ (fun r => if r = 1 then [0] else []) 1,
      ∃ j, ∃ hj : j < ([FutId.rootmf 0, FutId.cs 0, FutId.rootmf 1,
          FutId.cs 1] : List FutId).length, j < 3 ∧
        ([FutId.rootmf 0, FutId.cs 0, FutId.rootmf 1,
          FutId.cs 1] : List FutId)[j] = FutId.cs p) := by
  have t1 : ValidTrace (uploadDeps (fun r => if r = 1 then [0] else []) (fun _ => 0))
      ([] ++ [FutId.rootmf 0]) :=
    ValidTrace.snoc ValidTrace.nil (by decide)
  have t2 : ValidTrace (uploadDeps (fun r => if r = 1 then [0] else []) (fun _ => 0))
      (([] ++ [FutId.rootmf 0]) ++ [FutId.cs 0]) :=
    ValidTrace.snoc t1 (by decide)
  have t3 : ValidTrace (uploadDeps (fun r => if r = 1 then [0] else []) (fun _ => 0))
      ((([] ++ [FutId.rootmf 0]) ++ [FutId.cs 0]) ++ [FutId.rootmf 1]) :=
    ValidTrace.snoc t2 (by decide)
  have t4 : ValidTrace (uploadDeps (fun r => if r = 1 then [0] else []) (fun _ => 0))
      (((([] ++ [FutId.rootmf 0]) ++ [FutId.cs 0]) ++ [FutId.rootmf 1]) ++ [FutId.cs 1]) :=
    ValidTrace.snoc t3 (by decide)
  exact upload_changesets_parent_order_spec (fun r => if r = 1 then [0] else [])
    (fun _ => 0) [FutId.rootmf 0, FutId.cs 0, FutId.rootmf 1, FutId.cs 1] t4 1 3
    (by decide) rfl

end Mononoke
